import Mathlib

/-!
# Hephaestus — verification of the orchestration-core specification

Shallow embedding of the Hephaestus repository: the frontend utilities under
`frontend/src`, and the Orchestration Core (scheduler/queue, agent lifecycle
manager, coherence monitor) described by the specification.  The Python
implementation of the core (`src/core/queue_service.py`,
`src/agents/agent_manager.py`, `src/monitoring/guardian.py`) is not among the
available sources — only its documentation and callers are — so those parts
are modelled from the specification, as marked on each definition.

JavaScript strings are modelled as `List Char`; JS string concatenation is
list append and `String.prototype.startsWith` is `List.isPrefixOf`.
-/

namespace Hephaestus

/-! ## Frontend API configuration (`frontend/src/lib/api-config.ts`) -/

/-- `getApiBaseUrl` from `api-config.ts`:
returns `` `${apiProtocol}://${apiHost}:${apiPort}` ``. -/
def getApiBaseUrl (apiProtocol apiHost apiPort : List Char) : List Char :=
  apiProtocol ++ [':', '/', '/'] ++ apiHost ++ [':'] ++ apiPort

/-- `getApiUrl` from `api-config.ts`: normalizes the path to start with `'/'`
and appends it to the base URL. -/
def getApiUrl (apiProtocol apiHost apiPort path : List Char) : List Char :=
  let baseUrl := getApiBaseUrl apiProtocol apiHost apiPort
  let normalizedPath := if List.isPrefixOf ['/'] path then path else '/' :: path
  baseUrl ++ normalizedPath

/-! ## Phases page activity feed (`frontend/src/pages/Phases.tsx`) -/

/-- The `PhaseActivity` interface from `Phases.tsx`. -/
structure PhaseActivity where
  type : List Char
  timestamp : List Char
  from_phase : Option Nat
  to_phase : Option Nat
  agent_id : Option (List Char)
  task_id : Option (List Char)
  description : List Char
deriving DecidableEq

/-- The `phase_activity` socket handler in `Phases.tsx`:
`setActivities((prev) => [activity, ...prev].slice(0, 50))`. -/
def onPhaseActivity (activity : PhaseActivity) (prev : List PhaseActivity) :
    List PhaseActivity :=
  (activity :: prev).take 50

/-- The activities state after a sequence of `phase_activity` events,
starting from the initial `useState` value `[]`. -/
def runPhaseActivities (events : List PhaseActivity) : List PhaseActivity :=
  events.foldl (fun prev a => onPhaseActivity a prev) []

/-! ## Orchestration core data model

Modelled from the spec, §3 DATA MODEL: the implementing modules
(`src/core/queue_service.py`, `src/core/database.py`) are not among the
available sources. -/

/-- Modelled from the spec: task priority, `low/medium/high, ordinal`
(§3 Task); the queue service source is missing. -/
inductive Priority
  | low
  | medium
  | high
deriving DecidableEq

/-- Modelled from the spec: the priority weight used for ranking,
`high>medium>low` (§4.1 selectNext). -/
def Priority.weight : Priority → Nat
  | .low => 0
  | .medium => 1
  | .high => 2

/-- Modelled from the spec: task status enum of the scheduler state machine
`pending → assigned → in_progress → {done | failed}` with the `blocked` and
`blocked_on_validation` sub-states (§4.1). -/
inductive TaskStatus
  | pending
  | assigned
  | in_progress
  | blocked
  | blocked_on_validation
  | done
  | failed
deriving DecidableEq

/-- A status is terminal iff it is `done` or `failed` (§3 Task lifecycle). -/
def TaskStatus.isTerminal : TaskStatus → Bool
  | .done => true
  | .failed => true
  | _ => false

/-- Terminal-success: only `done` counts for dependency gating (§4.1). -/
def TaskStatus.isSuccess : TaskStatus → Bool
  | .done => true
  | _ => false

/-- Modelled from the spec: Task record, §3 (id, description, phase
reference, status, priority, optional assigned-agent id, creation timestamp,
dependency ids, originating-agent id). -/
structure Task where
  id : Nat
  description : List Char
  phase : Nat
  status : TaskStatus
  priority : Priority
  assignedAgent : Option Nat
  createdAt : Nat
  dependencies : List Nat
  originAgent : Option Nat
deriving DecidableEq

/-- Modelled from the spec: agent status `idle/working/terminated` (§3). -/
inductive AgentStatus
  | idle
  | working
  | terminated
deriving DecidableEq

/-- Modelled from the spec: Agent record, §3 (id, status, current task id,
phase id, session identifier, created-at, last-observed-output heartbeat). -/
structure Agent where
  id : Nat
  status : AgentStatus
  currentTask : Option Nat
  phase : Nat
  session : Nat
  createdAt : Nat
  lastOutput : Nat
deriving DecidableEq

/-- Modelled from the spec: the State Store, the single authoritative shared
mutable state (§2, §5): phase ordinals of the workflow, the append-only task
log, the agent records, the consumed capacity slots, and the log of
terminated session ids (for the lifecycle manager's teardown/reconcile). -/
structure Store where
  phases : List Nat
  tasks : List Task
  agents : List Agent
  usedSlots : Nat
  killedSessions : List Nat
deriving DecidableEq

/-- The empty store at workflow bootstrap, with the immutable phase list. -/
def Store.init (phases : List Nat) : Store :=
  { phases := phases, tasks := [], agents := [], usedSlots := 0, killedSessions := [] }

/-- Look a task up by id in the store. -/
def findTask (st : Store) (taskId : Nat) : Option Task :=
  st.tasks.find? (fun t => t.id == taskId)

/-- Look an agent up by id in the store. -/
def findAgent (st : Store) (agentId : Nat) : Option Agent :=
  st.agents.find? (fun a => a.id == agentId)

/-- The number of non-terminated agents currently holding `taskId` as their
current task (§3 Task invariant, §8 first testable property). -/
def liveHolders (agents : List Agent) (taskId : Nat) : Nat :=
  (agents.filter (fun a => !(a.status == AgentStatus.terminated) &&
    a.currentTask == some taskId)).length

/-! ## Scheduler (spec §4.1; `src/core/queue_service.py` is missing) -/

/-- Modelled from the spec: the error taxonomy of §7 relevant to the
scheduler operations. -/
inductive QueueError
  | ValidationError
  | InvalidStateTransition
  | NotFound
deriving DecidableEq

/-- Modelled from the spec: legal transitions of the per-task state machine
`pending → assigned → in_progress → {done | failed}`, with `blocked`
reachable from (and back to) `pending` and `blocked_on_validation` reachable
from `in_progress` before `done` (§4.1). -/
def legalTransition : TaskStatus → TaskStatus → Bool
  | .pending, .assigned => true
  | .pending, .blocked => true
  | .blocked, .pending => true
  | .assigned, .in_progress => true
  | .in_progress, .done => true
  | .in_progress, .failed => true
  | .in_progress, .blocked_on_validation => true
  | .blocked_on_validation, .done => true
  | .blocked_on_validation, .failed => true
  | _, _ => false

/-- Modelled from the spec: a dependency id is satisfied iff it refers to a
task in a terminal-success state (§4.1 eligibility). -/
def depSatisfied (st : Store) (d : Nat) : Bool :=
  match findTask st d with
  | some dt => dt.status.isSuccess
  | none => false

/-- Modelled from the spec: a task is eligible for selection iff it is
`pending` and all its dependency ids are satisfied (§4.1). -/
def eligible (st : Store) (t : Task) : Bool :=
  t.status == TaskStatus.pending && t.dependencies.all (depSatisfied st)

/-- Modelled from the spec: the deterministic total ranking order of §4.1 —
priority weight descending, then phase ordinal ascending, then creation
timestamp ascending, then task id ascending as the final tie-break. -/
def rankBefore (a b : Task) : Bool :=
  if a.priority.weight = b.priority.weight then
    if a.phase = b.phase then
      if a.createdAt = b.createdAt then decide (a.id ≤ b.id)
      else decide (a.createdAt < b.createdAt)
    else decide (a.phase < b.phase)
  else decide (b.priority.weight < a.priority.weight)

/-- The ranking order as a relation, for sorting. -/
def RankLE (a b : Task) : Prop := rankBefore a b = true

instance : DecidableRel RankLE := fun a b =>
  inferInstanceAs (Decidable (rankBefore a b = true))

/-- Modelled from the spec: `selectNext(capacity)` — for the given number of
free capacity slots, take the highest-ranked eligible pending tasks and mark
them `assigned` atomically with selection (§4.1); returns the selected tasks
and the updated store. -/
def selectNext (st : Store) (capacity : Nat) : List Task × Store :=
  let chosen := (List.insertionSort RankLE (st.tasks.filter (eligible st))).take capacity
  let chosenIds := chosen.map Task.id
  (chosen,
    { st with
      tasks := st.tasks.map (fun t =>
        if chosenIds.contains t.id && t.status == TaskStatus.pending then
          { t with status := TaskStatus.assigned }
        else t),
      usedSlots := st.usedSlots + chosen.length })

/-- Set the status of every task record with the given id. -/
def setTaskStatus (tasks : List Task) (taskId : Nat) (s : TaskStatus) : List Task :=
  tasks.map (fun t => if t.id == taskId then { t with status := s } else t)

/-- Modelled from the spec: after a terminal write, re-evaluate previously
`blocked` tasks whose dependencies are now all satisfied, releasing them back
to `pending` (§4.1 updateStatus). -/
def reevalBlocked (st : Store) : Store :=
  { st with
    tasks := st.tasks.map (fun t =>
      if t.status == TaskStatus.blocked && t.dependencies.all (depSatisfied st) then
        { t with status := TaskStatus.pending }
      else t) }

/-- Modelled from the spec: `updateStatus(taskId, newStatus, agentId)` —
validates the transition against the state machine (illegal transitions fail
with `InvalidStateTransition`, unknown ids with `NotFound`, state unchanged
in both cases); on reaching a terminal state frees the associated capacity
slot and re-evaluates previously `blocked` tasks (§4.1). -/
def updateStatus (st : Store) (taskId : Nat) (newStatus : TaskStatus)
    (_agentId : Nat) : Store × Option QueueError :=
  match findTask st taskId with
  | none => (st, some QueueError.NotFound)
  | some t =>
    if legalTransition t.status newStatus then
      let st1 := { st with tasks := setTaskStatus st.tasks taskId newStatus }
      if newStatus.isTerminal then
        (reevalBlocked { st1 with usedSlots := st1.usedSlots - 1 }, none)
      else (st1, none)
    else (st, some QueueError.InvalidStateTransition)

/-- A fresh task id, strictly above every id in the append-only task log. -/
def freshTaskId (st : Store) : Nat :=
  (st.tasks.map Task.id).foldr Nat.max 0 + 1

/-- Modelled from the spec: `enqueue(task)` — validates the required fields
(description, phase reference), assigns `pending`, and returns the new id;
fails with `ValidationError` on missing fields (§4.1). -/
def enqueue (st : Store) (description : List Char) (phase : Nat)
    (priority : Priority) (dependencies : List Nat) (originAgent : Option Nat)
    (now : Nat) : Store × Except QueueError Nat :=
  if description.isEmpty || !st.phases.contains phase then
    (st, Except.error QueueError.ValidationError)
  else
    ({ st with
        tasks := st.tasks ++ [{
          id := freshTaskId st, description := description, phase := phase,
          status := TaskStatus.pending, priority := priority,
          assignedAgent := none, createdAt := now,
          dependencies := dependencies, originAgent := originAgent }] },
      Except.ok (freshTaskId st))

/-- Modelled from the spec: `requeue(taskId)` — forces a non-terminal task
back to `pending`, clearing its agent assignment; used by orphan
reconciliation (§4.1). -/
def requeue (st : Store) (taskId : Nat) : Store :=
  { st with
    tasks := st.tasks.map (fun t =>
      if t.id == taskId && !t.status.isTerminal then
        { t with status := TaskStatus.pending, assignedAgent := none }
      else t) }

/-! ## Lifecycle manager (spec §4.2; `src/agents/agent_manager.py` is
missing) -/

/-- Modelled from the spec: `spawn(task)` — for an `assigned`, still unbound
task, launch a session, create the Agent record with status `working` bound
1:1 to the task, and record the binding on the task; on any failure
(unknown task, task not assigned, already bound) the store is unchanged and
the task stays `assigned` but unbound (§4.2). -/
def spawn (st : Store) (taskId agentId sessionId now : Nat) : Store :=
  match findTask st taskId with
  | none => st
  | some t =>
    if t.status == TaskStatus.assigned && t.assignedAgent == none then
      { st with
        tasks := st.tasks.map (fun u =>
          if u.id == taskId then { u with assignedAgent := some agentId } else u),
        agents := st.agents ++ [{
          id := agentId, status := AgentStatus.working,
          currentTask := some taskId, phase := t.phase, session := sessionId,
          createdAt := now, lastOutput := now }] }
    else st

/-- Mark every agent record with the given id `terminated` and log its
session as closed. -/
def terminateAgent (st : Store) (agentId session : Nat) : Store :=
  { st with
    agents := st.agents.map (fun a =>
      if a.id == agentId then { a with status := AgentStatus.terminated } else a),
    killedSessions := session :: st.killedSessions }

/-- Modelled from the spec: `teardown(agent)` — closes the session and marks
the agent `terminated`; a no-op on an unknown or already-terminated agent
(§4.2). -/
def teardown (st : Store) (agentId : Nat) : Store :=
  match findAgent st agentId with
  | none => st
  | some ag =>
    if ag.status == AgentStatus.terminated then st
    else terminateAgent st agentId ag.session

/-- Modelled from the spec: `probeLiveness(agent)` — true iff the session has
produced output inside the grace window (§4.2). -/
def probeLiveness (ag : Agent) (now grace : Nat) : Bool :=
  decide (now - ag.lastOutput ≤ grace)

/-- Modelled from the spec: the orphan policy (§4.2) — a live agent whose
liveness probe has failed for longer than the grace window is reconciled:
the dangling session is terminated, the agent is marked `terminated`, and
its bound task is `requeue`d via the scheduler.  A no-op on unknown,
already-terminated, or still-live agents. -/
def reconcileOrphan (st : Store) (agentId now grace : Nat) : Store :=
  match findAgent st agentId with
  | none => st
  | some ag =>
    if ag.status == AgentStatus.terminated || probeLiveness ag now grace then st
    else
      let st1 := terminateAgent st agentId ag.session
      match ag.currentTask with
      | some tid => requeue st1 tid
      | none => st1

/-! ## The reachable states of the orchestration store (spec §5) -/

/-- Modelled from the spec: the atomic operations of the three drivers that
touch the shared store (§5) — the scheduler's `enqueue`, `selectNext`,
`updateStatus`, the lifecycle manager's `spawn` and `teardown`, and the
monitor-driven orphan reconciliation.  Each operation is one atomic
read-modify-write step on the store (single-writer view). -/
inductive Step : Store → Store → Prop
  | enqueueStep (st : Store) (d : List Char) (ph : Nat) (p : Priority)
      (deps : List Nat) (o : Option Nat) (now : Nat) :
      Step st (enqueue st d ph p deps o now).1
  | selectNextStep (st : Store) (cap : Nat) : Step st (selectNext st cap).2
  | updateStatusStep (st : Store) (tid : Nat) (s : TaskStatus) (aid : Nat) :
      Step st (updateStatus st tid s aid).1
  | spawnStep (st : Store) (tid aid sid now : Nat) :
      Step st (spawn st tid aid sid now)
  | teardownStep (st : Store) (aid : Nat) : Step st (teardown st aid)
  | reconcileStep (st : Store) (aid now grace : Nat) :
      Step st (reconcileOrphan st aid now grace)

/-- The stores reachable from workflow bootstrap by the atomic operations. -/
inductive Reachable : Store → Prop
  | init (phases : List Nat) : Reachable (Store.init phases)
  | step {st st2 : Store} : Reachable st → Step st st2 → Reachable st2

/-- The store consistency invariant (§3 invariants): every task has at most
one live holder; an unbound task has no live holder; a live agent's current
task refers to a task in the log. -/
structure Inv (st : Store) : Prop where
  atMostOne : ∀ tid, liveHolders st.agents tid ≤ 1
  unboundFree : ∀ t ∈ st.tasks, t.assignedAgent = none → liveHolders st.agents t.id = 0
  holderBound : ∀ a ∈ st.agents, a.status ≠ AgentStatus.terminated →
      ∀ tid, a.currentTask = some tid → ∃ t ∈ st.tasks, t.id = tid

/-! ## Capacity accounting over update traces (spec §4.1, §8) -/

/-- One external `updateStatus` call (§6 status-update interface). -/
structure UpdateCall where
  taskId : Nat
  newStatus : TaskStatus
  agentId : Nat
deriving DecidableEq

/-- Apply one `updateStatus` call, keeping the (unchanged) store on error. -/
def applyUpdate (st : Store) (u : UpdateCall) : Store :=
  (updateStatus st u.taskId u.newStatus u.agentId).1

/-- The store after a sequence of `updateStatus` calls. -/
def runUpdates (st : Store) (us : List UpdateCall) : Store :=
  us.foldl applyUpdate st

/-- Whether the task with the given id currently has a terminal status. -/
def taskTerminal (st : Store) (tid : Nat) : Bool :=
  match findTask st tid with
  | some t => t.status.isTerminal
  | none => false

/-- How many calls of the trace free the capacity slot of task `tid`: a call
frees it iff it addresses `tid`, succeeds, and its new status is terminal
(§4.1 updateStatus frees the slot on reaching a terminal state). -/
def countFrees (st : Store) (tid : Nat) : List UpdateCall → Nat
  | [] => 0
  | u :: us =>
    let r := updateStatus st u.taskId u.newStatus u.agentId
    (if u.taskId = tid ∧ r.2 = none ∧ u.newStatus.isTerminal = true then 1 else 0) +
      countFrees r.1 tid us

/-! ## Coherence monitor (spec §4.3; `src/monitoring/guardian.py` is
missing) -/

/-- Modelled from the spec: the scoring oracle's answer — a coherence score
in `[0,1]` (modelled as a rational) and a rationale (§6). -/
structure OracleResult where
  score : ℚ
  rationale : List Char
deriving DecidableEq

/-- Modelled from the spec: the per-tick `CoherenceAssessment` record (§3). -/
structure CoherenceAssessment where
  agentId : Nat
  score : ℚ
  rationale : List Char
deriving DecidableEq

/-- The default steering threshold, 0.7 (§4.3, `steering_threshold: 0.7`). -/
def defaultThreshold : ℚ := 7 / 10

/-- Modelled from the spec: the corrective steering message constructed for a
drifting agent (§4.3); its text carries the oracle's rationale. -/
def steeringMessage (_ag : Agent) (res : OracleResult) : List Char :=
  res.rationale

/-- Modelled from the spec: one monitor tick over the given agents — for each
agent ask the oracle; on failure skip the agent for this tick (no assessment,
no steering); on success record one `CoherenceAssessment` and, iff the score
is below the threshold, inject exactly one steering message (§4.3). -/
def tickEval (threshold : ℚ) (oracle : Nat → Option OracleResult) :
    List Agent → List CoherenceAssessment × List (Nat × List Char)
  | [] => ([], [])
  | ag :: rest =>
    let acc := tickEval threshold oracle rest
    match oracle ag.id with
    | none => acc
    | some res =>
      ({ agentId := ag.id, score := res.score, rationale := res.rationale } :: acc.1,
        if res.score < threshold then (ag.id, steeringMessage ag res) :: acc.2 else acc.2)

/-- Modelled from the spec: a monitor tick enumerates the agents with status
`working` and evaluates each one (§4.3 step 1–3), returning the recorded
assessments and the injected steering messages. -/
def tick (threshold : ℚ) (oracle : Nat → Option OracleResult) (st : Store) :
    List CoherenceAssessment × List (Nat × List Char) :=
  tickEval threshold oracle (st.agents.filter (fun a => a.status == AgentStatus.working))

/-- Number of assessments recorded for the given agent in a tick. -/
def assessCount (l : List CoherenceAssessment) (aid : Nat) : Nat :=
  (l.filter (fun a => a.agentId == aid)).length

/-- Number of steering messages injected into the given agent in a tick. -/
def injectCount (l : List (Nat × List Char)) (aid : Nat) : Nat :=
  (l.filter (fun i => i.1 == aid)).length

/-! ## Concrete example stores (for the spec's §8 scenarios) -/

/-- A pending task with no dependencies, as in the §8 ranking scenario. -/
def scenarioTask (id : Nat) (p : Priority) (ph created : Nat) : Task :=
  { id := id, description := ['t'], phase := ph, status := TaskStatus.pending,
    priority := p, assignedAgent := none, createdAt := created,
    dependencies := [], originAgent := none }

/-- §8 scenario: T1(high, phase 1, t=10), T2(high, phase 1, t=5),
T3(medium, phase 1, t=1). -/
def scenarioStore : Store :=
  { phases := [1],
    tasks := [scenarioTask 1 Priority.high 1 10, scenarioTask 2 Priority.high 1 5,
      scenarioTask 3 Priority.medium 1 1],
    agents := [], usedSlots := 0, killedSessions := [] }

/-- §8 scenario: T4 depends on T5, with T5 in the given status. -/
def depStore (s5 : TaskStatus) : Store :=
  { phases := [1],
    tasks := [
      { id := 5, description := ['t'], phase := 1, status := s5,
        priority := Priority.medium, assignedAgent := none, createdAt := 0,
        dependencies := [], originAgent := none },
      { id := 4, description := ['t'], phase := 1, status := TaskStatus.pending,
        priority := Priority.medium, assignedAgent := none, createdAt := 1,
        dependencies := [5], originAgent := none }],
    agents := [], usedSlots := 0, killedSessions := [] }

/-- A working agent bound to a task, for the §8 monitor scenarios. -/
def mkAgent (i : Nat) : Agent :=
  { id := i, status := AgentStatus.working, currentTask := some i, phase := 2,
    session := 10 + i, createdAt := 0, lastOutput := 0 }

/-- A store with two working agents, for the §8 monitor scenarios. -/
def guardianStore : Store :=
  { phases := [1, 2, 3], tasks := [], agents := [mkAgent 1, mkAgent 2],
    usedSlots := 2, killedSessions := [] }

/-- §8 scenario: agent A spawned for task T6 whose session never produces
output. -/
def orphanAgent : Agent :=
  { id := 7, status := AgentStatus.working, currentTask := some 6, phase := 2,
    session := 17, createdAt := 0, lastOutput := 0 }

/-- The task T6 bound to the orphaned agent. -/
def orphanTask : Task :=
  { id := 6, description := ['t'], phase := 2, status := TaskStatus.in_progress,
    priority := Priority.medium, assignedAgent := some 7, createdAt := 0,
    dependencies := [], originAgent := none }

/-- The store of the §8 orphan scenario. -/
def orphanStore : Store :=
  { phases := [1, 2, 3], tasks := [orphanTask], agents := [orphanAgent],
    usedSlots := 1, killedSessions := [] }

/-! # Theorems -/

theorem onPhaseActivity_length_le (a : PhaseActivity) (prev : List PhaseActivity) :
    (onPhaseActivity a prev).length ≤ 50 := by
  simp only [onPhaseActivity, List.length_take]
  omega

theorem runPhaseActivities_aux (events : List PhaseActivity)
    (acc : List PhaseActivity) (hacc : acc.length ≤ 50) :
    (events.foldl (fun prev a => onPhaseActivity a prev) acc).length ≤ 50 := by
  induction events generalizing acc with
  | nil => simpa using hacc
  | cons e es ih =>
    simp only [List.foldl_cons]
    exact ih _ (onPhaseActivity_length_le e acc)

/-- C10: after every received `phase_activity` event the activities list holds
at most 50 entries, with the newest activity at the front and the previously
stored activities following in order (entries beyond 50 dropped); the bound
holds for every sequence of incoming events. -/
theorem phases_activities_bounded (events : List PhaseActivity)
    (a : PhaseActivity) (prev : List PhaseActivity) :
    (runPhaseActivities events).length ≤ 50 ∧
    onPhaseActivity a prev = a :: prev.take 49 := by
  constructor
  · exact runPhaseActivities_aux events [] (by simp)
  · rfl

/-- C9: `getApiUrl(path)` is the base URL followed by `path` when `path`
already starts with `'/'`, and the base URL, a `'/'`, and `path` otherwise;
in both cases the result is the base URL followed immediately by a `'/'`. -/
theorem getApiUrl_normalized (apiProtocol apiHost apiPort path : List Char) :
    (List.isPrefixOf ['/'] path = true →
      getApiUrl apiProtocol apiHost apiPort path =
        getApiBaseUrl apiProtocol apiHost apiPort ++ path) ∧
    (List.isPrefixOf ['/'] path = false →
      getApiUrl apiProtocol apiHost apiPort path =
        getApiBaseUrl apiProtocol apiHost apiPort ++ '/' :: path) ∧
    (∃ rest, getApiUrl apiProtocol apiHost apiPort path =
        getApiBaseUrl apiProtocol apiHost apiPort ++ '/' :: rest) := by
  refine ⟨fun h => ?_, fun h => ?_, ?_⟩
  · simp [getApiUrl, h]
  · simp [getApiUrl, h]
  · by_cases h : List.isPrefixOf ['/'] path
    · rw [List.isPrefixOf_iff_prefix] at h
      obtain ⟨rest, hrest⟩ := h
      refine ⟨rest, ?_⟩
      simp [getApiUrl, List.isPrefixOf_iff_prefix.mpr ⟨rest, hrest⟩, ← hrest]
    · refine ⟨path, ?_⟩
      simp [getApiUrl, h]

/-! ### Scheduler ranking (C2, C3) -/

theorem rankBefore_iff (a b : Task) : rankBefore a b = true ↔
    b.priority.weight < a.priority.weight ∨
      (a.priority.weight = b.priority.weight ∧
        (a.phase < b.phase ∨ (a.phase = b.phase ∧
          (a.createdAt < b.createdAt ∨
            (a.createdAt = b.createdAt ∧ a.id ≤ b.id))))) := by
  unfold rankBefore
  repeat' split
  all_goals simp_all

instance : IsTotal Task RankLE :=
  ⟨by
    intro a b
    simp only [RankLE, rankBefore_iff]
    omega⟩

instance : IsTrans Task RankLE :=
  ⟨by
    intro a b c hab hbc
    simp only [RankLE, rankBefore_iff] at *
    omega⟩

theorem selectNext_fst (st : Store) (cap : Nat) :
    (selectNext st cap).1 =
      (List.insertionSort RankLE (st.tasks.filter (eligible st))).take cap := rfl

theorem mem_selectNext_eligible {st : Store} {cap : Nat} {t : Task}
    (ht : t ∈ (selectNext st cap).1) : eligible st t = true := by
  rw [selectNext_fst] at ht
  have h1 : t ∈ List.insertionSort RankLE (st.tasks.filter (eligible st)) :=
    (List.take_sublist _ _).subset ht
  have h2 : t ∈ st.tasks.filter (eligible st) :=
    (List.perm_insertionSort RankLE _).mem_iff.mp h1
  exact (List.mem_filter.mp h2).2

/-- C2: `selectNext` ranks eligible tasks by the deterministic total order —
priority descending, phase ordinal ascending, creation timestamp ascending,
task id ascending — two calls on the same state return the same order, and on
the §8 scenario (T1 high/t=10, T2 high/t=5, T3 medium/t=1, one free slot) it
returns T2. -/
theorem selectNext_deterministic_order :
    (∀ st cap, List.Sorted RankLE (selectNext st cap).1) ∧
    (∀ st cap t, t ∈ (selectNext st cap).1 → eligible st t = true) ∧
    (∀ st cap, selectNext st cap = selectNext st cap) ∧
    (selectNext scenarioStore 1).1.map Task.id = [2] := by
  refine ⟨fun st cap => ?_, fun st cap t ht => mem_selectNext_eligible ht,
    fun st cap => rfl, by decide⟩
  rw [selectNext_fst]
  exact List.Pairwise.sublist (List.take_sublist _ _)
    (List.sorted_insertionSort RankLE _)

/-- Witness for C2 at a concrete input. -/
theorem selectNext_deterministic_order_witness :
    eligible scenarioStore (scenarioTask 2 Priority.high 1 5) = true :=
  selectNext_deterministic_order.2.1 scenarioStore 1
    (scenarioTask 2 Priority.high 1 5) (by decide)

/-- C3: task dependencies are a hard scheduling gate — a task with a
dependency not in a terminal-success state is never returned by
`selectNext`; once all its dependencies are satisfied, a pending task is
eligible for the next call. -/
theorem selectNext_dependency_gate :
    (∀ st cap t d, d ∈ t.dependencies → depSatisfied st d = false →
        t ∉ (selectNext st cap).1) ∧
    (∀ st t, t ∈ st.tasks → t.status = TaskStatus.pending →
        (∀ d ∈ t.dependencies, depSatisfied st d = true) →
        eligible st t = true) := by
  constructor
  · intro st cap t d hd hdep hmem
    have he := mem_selectNext_eligible hmem
    simp only [eligible, Bool.and_eq_true, List.all_eq_true] at he
    rw [he.2 d hd] at hdep
    cases hdep
  · intro st t _ hp hdeps
    simp only [eligible, hp, Bool.and_eq_true, List.all_eq_true, beq_self_eq_true,
      true_and]
    exact hdeps

/-- Witness for C3 at concrete inputs: with T5 pending, T4 is never selected;
with T5 done, T4 is eligible. -/
theorem selectNext_dependency_gate_witness :
    ((depStore TaskStatus.pending).tasks[1] ∉
        (selectNext (depStore TaskStatus.pending) 1).1) ∧
    eligible (depStore TaskStatus.done) ((depStore TaskStatus.done).tasks[1]) = true :=
  ⟨selectNext_dependency_gate.1 (depStore TaskStatus.pending) 1 _ 5 (by decide)
      (by decide),
    selectNext_dependency_gate.2 (depStore TaskStatus.done) _ (by decide) (by decide)
      (by decide)⟩

/-! ### updateStatus error handling and capacity accounting (C4, C5) -/

theorem legalTransition_of_terminal (s s2 : TaskStatus) (h : s.isTerminal = true) :
    legalTransition s s2 = false := by
  cases s <;> cases s2 <;> simp_all [TaskStatus.isTerminal, legalTransition]

theorem findTask_id {st : Store} {tid : Nat} {t : Task}
    (h : findTask st tid = some t) : t.id = tid := by
  have := List.find?_some h
  simpa using this

theorem updateStatus_of_terminal {st : Store} {tid : Nat} {t : Task}
    (hfind : findTask st tid = some t) (hterm : t.status.isTerminal = true)
    (s : TaskStatus) (aid : Nat) :
    updateStatus st tid s aid = (st, some QueueError.InvalidStateTransition) := by
  simp [updateStatus, hfind, legalTransition_of_terminal _ _ hterm]

theorem taskTerminal_iff (st : Store) (tid : Nat) :
    taskTerminal st tid = true ↔
      ∃ t, findTask st tid = some t ∧ t.status.isTerminal = true := by
  unfold taskTerminal
  cases h : findTask st tid <;> simp

theorem find?_task_map (tasks : List Task) (f : Task → Task)
    (hid : ∀ t, (f t).id = t.id) (tid : Nat) :
    (tasks.map f).find? (fun t => t.id == tid) =
      Option.map f (tasks.find? (fun t => t.id == tid)) := by
  rw [List.find?_map]
  have hp : ((fun t : Task => t.id == tid) ∘ f) = (fun t : Task => t.id == tid) := by
    funext t
    simp [Function.comp, hid]
  rw [hp]

theorem isTerminal_ne_blocked {s : TaskStatus} (h : s.isTerminal = true) :
    (s == TaskStatus.blocked) = false := by
  cases s <;> simp_all [TaskStatus.isTerminal]

theorem taskTerminal_updateStatus (st : Store) (tid : Nat) (s : TaskStatus)
    (aid tid2 : Nat) :
    taskTerminal (updateStatus st tid s aid).1 tid2 =
      if (updateStatus st tid s aid).2 = none ∧ tid2 = tid then s.isTerminal
      else taskTerminal st tid2 := by
  have hid1 : ∀ u : Task,
      ((if u.id == tid then { u with status := s } else u) : Task).id = u.id := by
    intro u
    split <;> rfl
  cases hfind : findTask st tid with
  | none => simp [updateStatus, hfind]
  | some t =>
    have htid : t.id = tid := findTask_id hfind
    have hfind' : st.tasks.find? (fun u => u.id == tid) = some t := hfind
    by_cases hl : legalTransition t.status s = true
    · by_cases hterm : s.isTerminal = true
      · simp only [updateStatus, hfind, hl, if_true, hterm]
        have hid2 : ∀ u : Task, ∀ st3 : Store,
            ((if u.status == TaskStatus.blocked && u.dependencies.all (depSatisfied st3)
              then { u with status := TaskStatus.pending } else u) : Task).id = u.id := by
          intro u st3
          split <;> rfl
        simp only [taskTerminal, findTask, reevalBlocked, setTaskStatus]
        rw [find?_task_map _ _ (fun u => hid2 u _) tid2, find?_task_map _ _ hid1 tid2]
        by_cases he : tid2 = tid
        · subst he
          rw [hfind']
          simp only [Option.map_some']
          rw [if_pos (beq_iff_eq.mpr htid)]
          simp [isTerminal_ne_blocked hterm, hterm]
        · simp only [ne_eq, he, and_false, if_false]
          cases hf2 : st.tasks.find? (fun u => u.id == tid2) with
          | none => simp
          | some u =>
            have hu : u.id = tid2 := by simpa using List.find?_some hf2
            simp only [Option.map_some']
            rw [if_neg (show ¬((u.id == tid) = true) by simp [hu, he])]
            split
            · rename_i hc
              have hub : u.status = TaskStatus.blocked := by
                simp only [Bool.and_eq_true, beq_iff_eq] at hc
                exact hc.1
              simp [hub, TaskStatus.isTerminal]
            · rfl
      · have hterm2 : s.isTerminal = false := by simpa using hterm
        simp only [updateStatus, hfind, hl, if_true, hterm2, Bool.false_eq_true, if_false]
        simp only [taskTerminal, findTask, setTaskStatus]
        rw [find?_task_map _ _ hid1 tid2]
        by_cases he : tid2 = tid
        · subst he
          rw [hfind']
          simp [htid, hterm2]
        · simp only [ne_eq, he, and_false, if_false]
          cases hf2 : st.tasks.find? (fun u => u.id == tid2) with
          | none => simp
          | some u =>
            have hu : u.id = tid2 := by simpa using List.find?_some hf2
            simp only [Option.map_some']
            rw [if_neg (show ¬((u.id == tid) = true) by simp [hu, he])]
    · simp [updateStatus, hfind, hl]

theorem taskTerminal_applyUpdate_of_terminal {st : Store} {tid : Nat}
    (h : taskTerminal st tid = true) (u : UpdateCall) :
    taskTerminal (applyUpdate st u) tid = true := by
  unfold applyUpdate
  rw [taskTerminal_updateStatus]
  split
  · rename_i hc
    obtain ⟨t, hfind, hterm⟩ := (taskTerminal_iff st tid).mp h
    rcases hc with ⟨hsucc, he⟩
    rw [← he] at hsucc
    rw [updateStatus_of_terminal hfind hterm] at hsucc
    simp at hsucc
  · exact h

theorem countFrees_of_terminal (us : List UpdateCall) :
    ∀ st tid, taskTerminal st tid = true → countFrees st tid us = 0 := by
  induction us with
  | nil => intro st tid _; rfl
  | cons u us ih =>
    intro st tid h
    simp only [countFrees]
    have h2 := taskTerminal_applyUpdate_of_terminal h u
    simp only [applyUpdate] at h2
    rw [ih _ _ h2]
    have hnot : ¬(u.taskId = tid ∧
        (updateStatus st u.taskId u.newStatus u.agentId).2 = none ∧
        u.newStatus.isTerminal = true) := by
      rintro ⟨he, hs, -⟩
      obtain ⟨t, hfind, hterm⟩ := (taskTerminal_iff st tid).mp h
      rw [he, updateStatus_of_terminal hfind hterm] at hs
      simp at hs
    rw [if_neg hnot]

theorem countFrees_le_one (us : List UpdateCall) :
    ∀ st tid, countFrees st tid us ≤ 1 := by
  induction us with
  | nil => intro st tid; simp [countFrees]
  | cons u us ih =>
    intro st tid
    simp only [countFrees]
    by_cases hc : u.taskId = tid ∧
        (updateStatus st u.taskId u.newStatus u.agentId).2 = none ∧
        u.newStatus.isTerminal = true
    · rw [if_pos hc]
      have hterm :
          taskTerminal (updateStatus st u.taskId u.newStatus u.agentId).1 tid = true := by
        rw [taskTerminal_updateStatus, if_pos ⟨hc.2.1, hc.1.symm⟩]
        exact hc.2.2
      rw [countFrees_of_terminal us _ _ hterm]
    · rw [if_neg hc]
      simpa using ih (updateStatus st u.taskId u.newStatus u.agentId).1 tid

theorem countFrees_eq_one (us : List UpdateCall) :
    ∀ st tid, taskTerminal st tid = false →
      taskTerminal (runUpdates st us) tid = true → countFrees st tid us = 1 := by
  induction us with
  | nil =>
    intro st tid h0 h1
    rw [show runUpdates st [] = st from rfl, h0] at h1
    cases h1
  | cons u us ih =>
    intro st tid h0 h1
    rw [show runUpdates st (u :: us) = runUpdates (applyUpdate st u) us from rfl] at h1
    simp only [countFrees]
    by_cases hc : u.taskId = tid ∧
        (updateStatus st u.taskId u.newStatus u.agentId).2 = none ∧
        u.newStatus.isTerminal = true
    · rw [if_pos hc]
      have hterm :
          taskTerminal (updateStatus st u.taskId u.newStatus u.agentId).1 tid = true := by
        rw [taskTerminal_updateStatus, if_pos ⟨hc.2.1, hc.1.symm⟩]
        exact hc.2.2
      rw [countFrees_of_terminal us _ _ hterm]
    · rw [if_neg hc]
      have h0' : taskTerminal (updateStatus st u.taskId u.newStatus u.agentId).1 tid = false := by
        rw [taskTerminal_updateStatus]
        split
        · rename_i hcc
          by_cases hb : u.newStatus.isTerminal = true
          · exact absurd ⟨hcc.2.symm, hcc.1, hb⟩ hc
          · simpa using hb
        · exact h0
      have h1' : taskTerminal
          (runUpdates (updateStatus st u.taskId u.newStatus u.agentId).1 us) tid = true := h1
      rw [ih _ _ h0' h1']

/-- C4: `updateStatus` fails with `InvalidStateTransition` on an illegal
transition of the task state machine and with `NotFound` on an unknown task
id; in both cases the stored state is unchanged. -/
theorem updateStatus_rejects_illegal :
    (∀ st tid s aid, findTask st tid = none →
        updateStatus st tid s aid = (st, some QueueError.NotFound)) ∧
    (∀ st tid t s aid, findTask st tid = some t →
        legalTransition t.status s = false →
        updateStatus st tid s aid = (st, some QueueError.InvalidStateTransition)) := by
  constructor
  · intro st tid s aid h
    simp [updateStatus, h]
  · intro st tid t s aid h hl
    simp [updateStatus, h, hl]

/-- Witness for C4 at concrete inputs. -/
theorem updateStatus_rejects_illegal_witness :
    updateStatus (depStore TaskStatus.pending) 99 TaskStatus.done 0 =
      (depStore TaskStatus.pending, some QueueError.NotFound) ∧
    updateStatus (depStore TaskStatus.pending) 5 TaskStatus.done 0 =
      (depStore TaskStatus.pending, some QueueError.InvalidStateTransition) :=
  ⟨updateStatus_rejects_illegal.1 _ 99 _ 0 (by decide),
    updateStatus_rejects_illegal.2 _ 5
      { id := 5, description := ['t'], phase := 1, status := TaskStatus.pending,
        priority := Priority.medium, assignedAgent := none, createdAt := 0,
        dependencies := [], originAgent := none } _ 0 (by decide) (by decide)⟩

/-- C5: repeating `updateStatus` with the same terminal status the task
already holds is rejected with the state unchanged, and over any sequence of
`updateStatus` calls the capacity slot of a task is freed at most once —
exactly once on the trace that takes the task from a non-terminal to a
terminal state — never twice. -/
theorem updateStatus_terminal_once :
    (∀ st tid t aid, findTask st tid = some t → t.status.isTerminal = true →
        updateStatus st tid t.status aid =
          (st, some QueueError.InvalidStateTransition)) ∧
    (∀ us st tid, countFrees st tid us ≤ 1) ∧
    (∀ us st tid, taskTerminal st tid = false →
        taskTerminal (runUpdates st us) tid = true → countFrees st tid us = 1) :=
  ⟨fun _ _ t aid hf ht => updateStatus_of_terminal hf ht t.status aid,
    fun us st tid => countFrees_le_one us st tid,
    fun us st tid => countFrees_eq_one us st tid⟩

/-- Witness for C5 at concrete inputs. -/
theorem updateStatus_terminal_once_witness :
    updateStatus (depStore TaskStatus.done) 5 TaskStatus.done 0 =
      (depStore TaskStatus.done, some QueueError.InvalidStateTransition) ∧
    countFrees (depStore TaskStatus.pending) 5
      [⟨5, TaskStatus.assigned, 0⟩, ⟨5, TaskStatus.in_progress, 0⟩,
        ⟨5, TaskStatus.done, 0⟩] = 1 :=
  ⟨updateStatus_terminal_once.1 (depStore TaskStatus.done) 5
      { id := 5, description := ['t'], phase := 1, status := TaskStatus.done,
        priority := Priority.medium, assignedAgent := none, createdAt := 0,
        dependencies := [], originAgent := none } 0 (by decide) (by decide),
    updateStatus_terminal_once.2.2
      [⟨5, TaskStatus.assigned, 0⟩, ⟨5, TaskStatus.in_progress, 0⟩,
        ⟨5, TaskStatus.done, 0⟩] (depStore TaskStatus.pending) 5 (by decide)
      (by decide)⟩

/-! ### Coherence monitor ticks (C6, C7) -/

theorem assessCount_cons (a : CoherenceAssessment) (l : List CoherenceAssessment)
    (aid : Nat) :
    assessCount (a :: l) aid =
      (if a.agentId == aid then 1 else 0) + assessCount l aid := by
  simp only [assessCount, List.filter_cons]
  split <;> simp [Nat.add_comm]

theorem injectCount_cons (i : Nat × List Char) (l : List (Nat × List Char))
    (aid : Nat) :
    injectCount (i :: l) aid = (if i.1 == aid then 1 else 0) + injectCount l aid := by
  simp only [injectCount, List.filter_cons]
  split <;> simp [Nat.add_comm]

theorem tickEval_count_zero (thr : ℚ) (oracle : Nat → Option OracleResult)
    (agents : List Agent) (aid : Nat) (h : aid ∉ agents.map Agent.id) :
    assessCount (tickEval thr oracle agents).1 aid = 0 ∧
    injectCount (tickEval thr oracle agents).2 aid = 0 := by
  induction agents with
  | nil => exact ⟨rfl, rfl⟩
  | cons b rest ih =>
    simp only [List.map_cons, List.mem_cons, not_or] at h
    obtain ⟨hb, hrest⟩ := h
    have ihr := ih hrest
    have hbne : (b.id == aid) = false :=
      beq_eq_false_iff_ne.mpr (fun hh => hb hh.symm)
    simp only [tickEval]
    cases horacle : oracle b.id with
    | none => exact ihr
    | some res =>
      refine ⟨by simpa [assessCount_cons, hbne] using ihr.1, ?_⟩
      by_cases hs : res.score < thr <;>
        simpa [hs, injectCount_cons, hbne] using ihr.2

theorem tickEval_count_eval (thr : ℚ) (oracle : Nat → Option OracleResult)
    (agents : List Agent) (ag : Agent) (res : OracleResult)
    (hmem : ag ∈ agents) (hnodup : (agents.map Agent.id).Nodup)
    (horacle : oracle ag.id = some res) :
    assessCount (tickEval thr oracle agents).1 ag.id = 1 ∧
    injectCount (tickEval thr oracle agents).2 ag.id =
      (if res.score < thr then 1 else 0) := by
  induction agents with
  | nil => cases hmem
  | cons b rest ih =>
    simp only [List.map_cons, List.nodup_cons] at hnodup
    obtain ⟨hbnotin, hrestnd⟩ := hnodup
    rcases List.mem_cons.mp hmem with hbeq | hmemr
    · subst hbeq
      have hzero := tickEval_count_zero thr oracle rest ag.id hbnotin
      simp only [tickEval, horacle]
      refine ⟨by simpa [assessCount_cons] using hzero.1, ?_⟩
      by_cases hs : res.score < thr <;>
        simpa [hs, injectCount_cons] using hzero.2
    · have hbne : (b.id == ag.id) = false :=
        beq_eq_false_iff_ne.mpr
          (fun hh => hbnotin (hh ▸ List.mem_map_of_mem Agent.id hmemr))
      have ihr := ih hmemr hrestnd
      simp only [tickEval]
      cases horacle2 : oracle b.id with
      | none => exact ihr
      | some res2 =>
        refine ⟨by simpa [assessCount_cons, hbne] using ihr.1, ?_⟩
        by_cases hs2 : res2.score < thr <;>
          simpa [hs2, injectCount_cons, hbne] using ihr.2

theorem tickEval_count_failure (thr : ℚ) (oracle : Nat → Option OracleResult)
    (agents : List Agent) (ag : Agent)
    (hmem : ag ∈ agents) (hnodup : (agents.map Agent.id).Nodup)
    (hfail : oracle ag.id = none) :
    assessCount (tickEval thr oracle agents).1 ag.id = 0 ∧
    injectCount (tickEval thr oracle agents).2 ag.id = 0 := by
  induction agents with
  | nil => exact ⟨rfl, rfl⟩
  | cons b rest ih =>
    simp only [List.map_cons, List.nodup_cons] at hnodup
    obtain ⟨hbnotin, hrestnd⟩ := hnodup
    rcases List.mem_cons.mp hmem with hbeq | hmemr
    · subst hbeq
      have hzero := tickEval_count_zero thr oracle rest ag.id hbnotin
      simp only [tickEval, hfail]
      exact hzero
    · have hbne : (b.id == ag.id) = false :=
        beq_eq_false_iff_ne.mpr
          (fun hh => hbnotin (hh ▸ List.mem_map_of_mem Agent.id hmemr))
      have ihr := ih hmemr hrestnd
      simp only [tickEval]
      cases horacle2 : oracle b.id with
      | none => exact ihr
      | some res2 =>
        refine ⟨by simpa [assessCount_cons, hbne] using ihr.1, ?_⟩
        by_cases hs2 : res2.score < thr <;>
          simpa [hs2, injectCount_cons, hbne] using ihr.2

theorem working_filter_nodup {st : Store}
    (hnodup : (st.agents.map Agent.id).Nodup) :
    (((st.agents.filter (fun a => a.status == AgentStatus.working)).map Agent.id)).Nodup :=
  ((List.filter_sublist st.agents).map Agent.id).nodup hnodup

/-- C6: on a monitor tick, a working agent whose oracle call returns a score
below the threshold gets exactly one injected steering message and exactly
one recorded assessment; at or above the threshold, zero messages and still
one assessment. -/
theorem tick_steering_per_agent (st : Store) (thr : ℚ)
    (oracle : Nat → Option OracleResult) (ag : Agent) (res : OracleResult)
    (hmem : ag ∈ st.agents) (hwork : ag.status = AgentStatus.working)
    (hnodup : (st.agents.map Agent.id).Nodup)
    (horacle : oracle ag.id = some res) :
    assessCount (tick thr oracle st).1 ag.id = 1 ∧
    (res.score < thr → injectCount (tick thr oracle st).2 ag.id = 1) ∧
    (thr ≤ res.score → injectCount (tick thr oracle st).2 ag.id = 0) := by
  have hmemf : ag ∈ st.agents.filter (fun a => a.status == AgentStatus.working) :=
    List.mem_filter.mpr ⟨hmem, by simp [hwork]⟩
  have h := tickEval_count_eval thr oracle _ ag res hmemf
    (working_filter_nodup hnodup) horacle
  refine ⟨h.1, fun hs => ?_, fun hs => ?_⟩
  · have h2 := h.2
    rw [if_pos hs] at h2
    exact h2
  · have h2 := h.2
    rw [if_neg (not_lt.mpr hs)] at h2
    exact h2

/-- Witness for C6 at concrete inputs: score 0.4 steers, score 0.9 does
not. -/
theorem tick_steering_per_agent_witness :
    assessCount
        (tick defaultThreshold (fun _ => some ⟨4/10, ['r']⟩) guardianStore).1 1 = 1 ∧
    injectCount
        (tick defaultThreshold (fun _ => some ⟨4/10, ['r']⟩) guardianStore).2 1 = 1 ∧
    assessCount
        (tick defaultThreshold (fun _ => some ⟨9/10, ['r']⟩) guardianStore).1 1 = 1 ∧
    injectCount
        (tick defaultThreshold (fun _ => some ⟨9/10, ['r']⟩) guardianStore).2 1 = 0 :=
  ⟨(tick_steering_per_agent guardianStore defaultThreshold _ (mkAgent 1) ⟨4/10, ['r']⟩
      (by decide) (by decide) (by decide) rfl).1,
    (tick_steering_per_agent guardianStore defaultThreshold _ (mkAgent 1) ⟨4/10, ['r']⟩
      (by decide) (by decide) (by decide) rfl).2.1 (by norm_num [defaultThreshold]),
    (tick_steering_per_agent guardianStore defaultThreshold _ (mkAgent 1) ⟨9/10, ['r']⟩
      (by decide) (by decide) (by decide) rfl).1,
    (tick_steering_per_agent guardianStore defaultThreshold _ (mkAgent 1) ⟨9/10, ['r']⟩
      (by decide) (by decide) (by decide) rfl).2.2 (by norm_num [defaultThreshold])⟩

/-- C7: on a monitor tick, an oracle failure for one working agent skips that
agent for the tick — no assessment and no steering (no penalty) — while
every other working agent with a successful oracle call is still evaluated,
and the skipped agent is evaluated again on a later tick whose oracle call
succeeds. -/
theorem tick_oracle_failure_skips (st : Store) (thr : ℚ)
    (oracle : Nat → Option OracleResult) (ag : Agent)
    (hmem : ag ∈ st.agents) (hwork : ag.status = AgentStatus.working)
    (hnodup : (st.agents.map Agent.id).Nodup)
    (hfail : oracle ag.id = none) :
    assessCount (tick thr oracle st).1 ag.id = 0 ∧
    injectCount (tick thr oracle st).2 ag.id = 0 ∧
    (∀ b res2, b ∈ st.agents → b.status = AgentStatus.working →
        oracle b.id = some res2 → assessCount (tick thr oracle st).1 b.id = 1) ∧
    (∀ oracle2 res2, oracle2 ag.id = some res2 →
        assessCount (tick thr oracle2 st).1 ag.id = 1) := by
  have hmemf : ag ∈ st.agents.filter (fun a => a.status == AgentStatus.working) :=
    List.mem_filter.mpr ⟨hmem, by simp [hwork]⟩
  have h := tickEval_count_failure thr oracle _ ag hmemf
    (working_filter_nodup hnodup) hfail
  refine ⟨h.1, h.2, fun b res2 hbmem hbwork hbor => ?_, fun oracle2 res2 hor2 => ?_⟩
  · have hbmemf : b ∈ st.agents.filter (fun a => a.status == AgentStatus.working) :=
      List.mem_filter.mpr ⟨hbmem, by simp [hbwork]⟩
    exact (tickEval_count_eval thr oracle _ b res2 hbmemf
      (working_filter_nodup hnodup) hbor).1
  · exact (tickEval_count_eval thr oracle2 _ ag res2 hmemf
      (working_filter_nodup hnodup) hor2).1

/-- Witness for C7 at concrete inputs: the oracle fails for agent 1 and
scores agent 2, then a later tick scores agent 1. -/
theorem tick_oracle_failure_skips_witness :
    assessCount (tick defaultThreshold
        (fun i => if i = 2 then some ⟨1/2, ['r']⟩ else none) guardianStore).1 1 = 0 ∧
    assessCount (tick defaultThreshold
        (fun i => if i = 2 then some ⟨1/2, ['r']⟩ else none) guardianStore).1 2 = 1 ∧
    assessCount (tick defaultThreshold
        (fun _ => some ⟨1/2, ['r']⟩) guardianStore).1 1 = 1 :=
  ⟨(tick_oracle_failure_skips guardianStore defaultThreshold _ (mkAgent 1)
      (by decide) (by decide) (by decide) rfl).1,
    (tick_oracle_failure_skips guardianStore defaultThreshold _ (mkAgent 1)
      (by decide) (by decide) (by decide) rfl).2.2.1 (mkAgent 2) ⟨1/2, ['r']⟩
      (by decide) (by decide) rfl,
    (tick_oracle_failure_skips guardianStore defaultThreshold
      (fun i => if i = 2 then some ⟨1/2, ['r']⟩ else none) (mkAgent 1)
      (by decide) (by decide) (by decide) rfl).2.2.2
      (fun _ => some ⟨1/2, ['r']⟩) ⟨1/2, ['r']⟩ rfl⟩

/-! ### Orphan reconciliation (C8) -/

theorem find?_agent_map (agents : List Agent) (f : Agent → Agent)
    (hid : ∀ a, (f a).id = a.id) (aid : Nat) :
    (agents.map f).find? (fun a => a.id == aid) =
      Option.map f (agents.find? (fun a => a.id == aid)) := by
  rw [List.find?_map]
  have hp : ((fun a : Agent => a.id == aid) ∘ f) = (fun a : Agent => a.id == aid) := by
    funext a
    simp [Function.comp, hid]
  rw [hp]

theorem reconcileOrphan_of_terminated {st : Store} {aid : Nat} {ag : Agent}
    (hfind : findAgent st aid = some ag)
    (hterm : (ag.status == AgentStatus.terminated) = true)
    (now grace : Nat) : reconcileOrphan st aid now grace = st := by
  simp [reconcileOrphan, hfind, hterm]

/-- C8: a live agent whose liveness probe has failed beyond the grace window
is reconciled exactly once — its session is terminated and logged once, the
agent is marked `terminated`, its bound non-terminal task is requeued to
`pending` with the assignment cleared, and a repeated reconciliation of the
same agent is a no-op. -/
theorem reconcileOrphan_exactly_once (st : Store) (ag : Agent) (t : Task)
    (aid now grace now2 grace2 : Nat)
    (hfind : findAgent st aid = some ag)
    (hlive : (ag.status == AgentStatus.terminated) = false)
    (hprobe : probeLiveness ag now grace = false)
    (hct : ag.currentTask = some t.id)
    (hfindT : findTask st t.id = some t)
    (hnonterm : t.status.isTerminal = false) :
    findAgent (reconcileOrphan st aid now grace) aid =
      some { ag with status := AgentStatus.terminated } ∧
    findTask (reconcileOrphan st aid now grace) t.id =
      some { t with status := TaskStatus.pending, assignedAgent := none } ∧
    (reconcileOrphan st aid now grace).killedSessions =
      ag.session :: st.killedSessions ∧
    reconcileOrphan (reconcileOrphan st aid now grace) aid now2 grace2 =
      reconcileOrphan st aid now grace := by
  have hagid : ag.id = aid := by simpa using List.find?_some hfind
  have hgate : (ag.status == AgentStatus.terminated || probeLiveness ag now grace)
      = false := by
    simp [hlive, hprobe]
  have hred : reconcileOrphan st aid now grace =
      requeue (terminateAgent st aid ag.session) t.id := by
    simp only [reconcileOrphan, hfind, hgate, Bool.false_eq_true, if_false, hct]
  have hA : findAgent (reconcileOrphan st aid now grace) aid =
      some { ag with status := AgentStatus.terminated } := by
    rw [hred]
    simp only [findAgent, requeue, terminateAgent]
    rw [find?_agent_map _ _ (fun a => by split <;> rfl) aid]
    rw [show st.agents.find? (fun a => a.id == aid) = some ag from hfind]
    simp [hagid]
  refine ⟨hA, ?_, ?_, ?_⟩
  · rw [hred]
    simp only [findTask, requeue, terminateAgent]
    rw [find?_task_map _ _ (fun u => by split <;> rfl) t.id]
    rw [show st.tasks.find? (fun u => u.id == t.id) = some t from hfindT]
    simp [hnonterm]
  · rw [hred]
    rfl
  · exact reconcileOrphan_of_terminated hA (by simp) now2 grace2

/-- Witness for C8 at the §8 scenario store. -/
theorem reconcileOrphan_exactly_once_witness :
    findTask (reconcileOrphan orphanStore 7 200 120) 6 =
      some { orphanTask with status := TaskStatus.pending, assignedAgent := none } ∧
    (reconcileOrphan orphanStore 7 200 120).killedSessions = [17] ∧
    reconcileOrphan (reconcileOrphan orphanStore 7 200 120) 7 300 120 =
      reconcileOrphan orphanStore 7 200 120 :=
  ⟨(reconcileOrphan_exactly_once orphanStore orphanAgent orphanTask 7 200 120 300 120
      (by decide) (by decide) (by decide) (by decide) (by decide) (by decide)).2.1,
    (reconcileOrphan_exactly_once orphanStore orphanAgent orphanTask 7 200 120 300 120
      (by decide) (by decide) (by decide) (by decide) (by decide) (by decide)).2.2.1,
    (reconcileOrphan_exactly_once orphanStore orphanAgent orphanTask 7 200 120 300 120
      (by decide) (by decide) (by decide) (by decide) (by decide) (by decide)).2.2.2⟩

/-! ### The single-holder invariant over reachable stores (C1) -/

theorem length_filter_map_le {α : Type} (l : List α) (f : α → α) (p : α → Bool)
    (h : ∀ a, p (f a) = true → p a = true) :
    ((l.map f).filter p).length ≤ (l.filter p).length := by
  induction l with
  | nil => simp
  | cons a l ih =>
    simp only [List.map_cons, List.filter_cons]
    by_cases hfa : p (f a) = true
    · rw [if_pos hfa, if_pos (h a hfa)]
      simpa using ih
    · rw [if_neg hfa]
      split

      · exact Nat.le_succ_of_le ih
      · exact ih

theorem two_mem_le_length {α : Type} {a b : α} {l : List α} (ha : a ∈ l)
    (hb : b ∈ l) (hne : a ≠ b) : 2 ≤ l.length := by
  induction l with
  | nil => cases ha
  | cons c l ih =>
    simp only [List.length_cons]
    rcases List.mem_cons.mp ha with rfl | ha2
    · rcases List.mem_cons.mp hb with rfl | hb2
      · exact absurd rfl hne
      · have := List.length_pos_of_mem hb2
        omega
    · rcases List.mem_cons.mp hb with rfl | hb2
      · have := List.length_pos_of_mem ha2
        omega
      · have := ih ha2 hb2
        omega

theorem eq_of_filter_len_le_one {α : Type} {p : α → Bool} {l : List α} {a b : α}
    (hlen : (l.filter p).length ≤ 1) (ha : a ∈ l) (hpa : p a = true)
    (hb : b ∈ l) (hpb : p b = true) : a = b := by
  by_contra hne
  have h2 := two_mem_le_length (List.mem_filter.mpr ⟨ha, hpa⟩)
    (List.mem_filter.mpr ⟨hb, hpb⟩) hne
  omega

theorem liveHolders_append (l1 l2 : List Agent) (tid : Nat) :
    liveHolders (l1 ++ l2) tid = liveHolders l1 tid + liveHolders l2 tid := by
  simp [liveHolders, List.filter_append]

theorem le_foldr_max (l : List Nat) (x : Nat) (hx : x ∈ l) :
    x ≤ l.foldr Nat.max 0 := by
  induction l with
  | nil => cases hx
  | cons y l ih =>
    simp only [List.foldr_cons]
    rcases List.mem_cons.mp hx with rfl | h2
    · exact Nat.le_max_left _ _
    · exact le_trans (ih h2) (Nat.le_max_right _ _)

theorem freshTaskId_not_mem (st : Store) : ∀ t ∈ st.tasks, t.id ≠ freshTaskId st := by
  intro t ht
  have : t.id ≤ (st.tasks.map Task.id).foldr Nat.max 0 :=
    le_foldr_max _ _ (List.mem_map_of_mem Task.id ht)
  unfold freshTaskId
  omega

theorem liveHolders_eq_zero_of_not_referenced (st : Store) (h : Inv st) (tid : Nat)
    (htid : ∀ t ∈ st.tasks, t.id ≠ tid) : liveHolders st.agents tid = 0 := by
  unfold liveHolders
  rw [List.length_eq_zero, List.filter_eq_nil_iff]
  intro a ha hpa
  simp only [Bool.and_eq_true, Bool.not_eq_true'] at hpa
  obtain ⟨hstat, hct⟩ := hpa
  have hlive : a.status ≠ AgentStatus.terminated := beq_eq_false_iff_ne.mp hstat
  have hct2 : a.currentTask = some tid := by simpa using hct
  obtain ⟨t, ht, hidt⟩ := h.holderBound a ha hlive tid hct2
  exact htid t ht hidt

theorem inv_init (phases : List Nat) : Inv (Store.init phases) := by
  refine ⟨fun tid => ?_, fun t ht => ?_, fun a ha => ?_⟩
  · simp [Store.init, liveHolders]
  · cases ht
  · cases ha

theorem inv_mapTasks {st st2 : Store} (h : Inv st) (f : Task → Task)
    (htasks : st2.tasks = st.tasks.map f) (hagents : st2.agents = st.agents)
    (hid : ∀ t, (f t).id = t.id) (hag : ∀ t, (f t).assignedAgent = t.assignedAgent) :
    Inv st2 := by
  refine ⟨fun tid => ?_, fun t ht hnone => ?_, fun a ha hlive tid hct => ?_⟩
  · rw [hagents]
    exact h.atMostOne tid
  · rw [hagents]
    rw [htasks] at ht
    obtain ⟨u, hu, rfl⟩ := List.mem_map.mp ht
    rw [hid]
    exact h.unboundFree u hu (by rw [← hag u]; exact hnone)
  · rw [hagents] at ha
    obtain ⟨t, ht, hidt⟩ := h.holderBound a ha hlive tid hct
    refine ⟨f t, ?_, by rw [hid]; exact hidt⟩
    rw [htasks]
    exact List.mem_map_of_mem f ht

theorem inv_enqueue (st : Store) (h : Inv st) (d : List Char) (ph : Nat)
    (p : Priority) (deps : List Nat) (o : Option Nat) (now : Nat) :
    Inv (enqueue st d ph p deps o now).1 := by
  unfold enqueue
  split
  · exact h
  · refine ⟨fun tid => h.atMostOne tid, fun t ht hnone => ?_,
      fun a ha hlive tid hct => ?_⟩
    · rcases List.mem_append.mp ht with h1 | h2
      · exact h.unboundFree t h1 hnone
      · have ht2 : t.id = freshTaskId st := by
          simp only [List.mem_singleton] at h2
          rw [h2]
        rw [ht2]
        exact liveHolders_eq_zero_of_not_referenced st h _ (freshTaskId_not_mem st)
    · obtain ⟨t, ht, hidt⟩ := h.holderBound a ha hlive tid hct
      exact ⟨t, List.mem_append_left _ ht, hidt⟩

theorem inv_selectNext (st : Store) (h : Inv st) (cap : Nat) :
    Inv (selectNext st cap).2 := by
  refine inv_mapTasks h _ rfl rfl ?_ ?_ <;> intro t
  · split <;> rfl
  · split <;> rfl

theorem inv_updateStatus (st : Store) (h : Inv st) (tid : Nat) (s : TaskStatus)
    (aid : Nat) : Inv (updateStatus st tid s aid).1 := by
  have h1 : Inv { st with
      tasks := setTaskStatus st.tasks tid s, usedSlots := st.usedSlots - 1 } := by
    refine inv_mapTasks h _ rfl rfl ?_ ?_ <;> intro u
    · split <;> rfl
    · split <;> rfl
  have h1b : Inv { st with tasks := setTaskStatus st.tasks tid s } := by
    refine inv_mapTasks h _ rfl rfl ?_ ?_ <;> intro u
    · split <;> rfl
    · split <;> rfl
  have h2 : Inv (reevalBlocked { st with
      tasks := setTaskStatus st.tasks tid s, usedSlots := st.usedSlots - 1 }) := by
    refine inv_mapTasks h1 _ rfl rfl ?_ ?_ <;> intro u
    · split <;> rfl
    · split <;> rfl
  cases hfind : findTask st tid with
  | none => simpa only [updateStatus, hfind] using h
  | some t =>
    by_cases hl : legalTransition t.status s = true
    · by_cases hterm : s.isTerminal = true
      · simpa only [updateStatus, hfind, hl, hterm, if_true] using h2
      · have hterm2 : s.isTerminal = false := by simpa using hterm
        simpa only [updateStatus, hfind, hl, if_true, hterm2, Bool.false_eq_true,
          if_false] using h1b
    · simpa only [updateStatus, hfind, hl, Bool.false_eq_true, if_false] using h

theorem inv_spawn (st : Store) (h : Inv st) (tid aid sid now : Nat) :
    Inv (spawn st tid aid sid now) := by
  cases hfind : findTask st tid with
  | none => simpa only [spawn, hfind] using h
  | some t =>
    by_cases hcond : (t.status == TaskStatus.assigned && t.assignedAgent == none) = true
    · simp only [spawn, hfind, hcond, if_true]
      obtain ⟨hst, hag⟩ := (Bool.and_eq_true _ _).mp hcond
      have hagn : t.assignedAgent = none := by simpa using hag
      have htid : t.id = tid := findTask_id hfind
      have hzero : liveHolders st.agents tid = 0 := by
        have := h.unboundFree t (List.mem_of_find?_eq_some hfind) hagn
        rwa [htid] at this
      refine ⟨fun tid2 => ?_, fun u' hu' hnone => ?_, fun a ha hlive tid2 hct => ?_⟩
      · show liveHolders (st.agents ++
            [⟨aid, AgentStatus.working, some tid, t.phase, sid, now, now⟩]) tid2 ≤ 1
        rw [liveHolders_append]
        by_cases he : tid2 = tid
        · subst he
          rw [hzero]
          simp [liveHolders]
        · have hne2 : tid ≠ tid2 := fun hh => he hh.symm
          have hone : liveHolders
              [(⟨aid, AgentStatus.working, some tid, t.phase, sid, now, now⟩ : Agent)]
              tid2 = 0 := by
            simp [liveHolders, hne2]
          rw [hone]
          simpa using h.atMostOne tid2
      · obtain ⟨u, hu, rfl⟩ := List.mem_map.mp hu'
        by_cases hcase : (u.id == tid) = true
        · simp [hcase] at hnone
        · have hcf : (u.id == tid) = false := by simpa using hcase
          simp only [hcf, Bool.false_eq_true, if_false] at hnone ⊢
          show liveHolders (st.agents ++
            [⟨aid, AgentStatus.working, some tid, t.phase, sid, now, now⟩]) u.id = 0
          rw [liveHolders_append]
          have h0 := h.unboundFree u hu hnone
          have hne : u.id ≠ tid := beq_eq_false_iff_ne.mp hcf
          have h1 : liveHolders
              [(⟨aid, AgentStatus.working, some tid, t.phase, sid, now, now⟩ : Agent)]
              u.id = 0 := by
            simp [liveHolders, Ne.symm hne]
          rw [h0, h1]
      · replace ha : a ∈ st.agents ++
            [⟨aid, AgentStatus.working, some tid, t.phase, sid, now, now⟩] := ha
        show ∃ u ∈ st.tasks.map (fun u =>
            if u.id == tid then { u with assignedAgent := some aid } else u), u.id = tid2
        rcases List.mem_append.mp ha with ha1 | ha2
        · obtain ⟨u, hu, hidu⟩ := h.holderBound a ha1 hlive tid2 hct
          refine ⟨_, List.mem_map_of_mem _ hu, ?_⟩
          split <;> exact hidu
        · have ha3 : a = ⟨aid, AgentStatus.working, some tid, t.phase, sid, now, now⟩ := by
            simpa using ha2
          subst ha3
          have htid2 : tid = tid2 := by simpa using hct
          refine ⟨_, List.mem_map_of_mem _ (List.mem_of_find?_eq_some hfind), ?_⟩
          split <;> exact htid.trans htid2
    · have hcf : (t.status == TaskStatus.assigned && t.assignedAgent == none) = false := by
        simpa using hcond
      simpa only [spawn, hfind, hcf, Bool.false_eq_true, if_false] using h

theorem inv_terminateAgent (st : Store) (h : Inv st) (aid sess : Nat) :
    Inv (terminateAgent st aid sess) := by
  have hmono : ∀ tid, liveHolders (terminateAgent st aid sess).agents tid ≤
      liveHolders st.agents tid := by
    intro tid
    refine length_filter_map_le _ _ _ ?_
    intro a hpa
    by_cases hcase : (a.id == aid) = true
    · simp [hcase] at hpa
    · simpa [hcase] using hpa
  refine ⟨fun tid => le_trans (hmono tid) (h.atMostOne tid),
    fun t ht hnone => ?_, fun a ha hlive tid hct => ?_⟩
  · have h0 := h.unboundFree t ht hnone
    have h2 := hmono t.id
    omega
  · obtain ⟨a0, ha0, rfl⟩ := List.mem_map.mp ha
    by_cases hcase : (a0.id == aid) = true
    · exfalso
      apply hlive
      simp [hcase]
    · have hcf : (a0.id == aid) = false := by simpa using hcase
      simp only [hcf, Bool.false_eq_true, if_false] at hlive hct
      exact h.holderBound a0 ha0 hlive tid hct

theorem inv_teardown (st : Store) (h : Inv st) (aid : Nat) : Inv (teardown st aid) := by
  cases hfind : findAgent st aid with
  | none => simpa only [teardown, hfind] using h
  | some ag =>
    by_cases hterm : (ag.status == AgentStatus.terminated) = true
    · simpa only [teardown, hfind, hterm, if_true] using h
    · have hterm2 : (ag.status == AgentStatus.terminated) = false := by simpa using hterm
      simpa only [teardown, hfind, hterm2, Bool.false_eq_true, if_false] using
        inv_terminateAgent st h aid ag.session

theorem liveHolders_terminate_of_holder (st : Store) (h : Inv st) (ag : Agent)
    (aid tid : Nat) (hfind : findAgent st aid = some ag)
    (hlive : (ag.status == AgentStatus.terminated) = false)
    (hct : ag.currentTask = some tid) (sess : Nat) :
    liveHolders (terminateAgent st aid sess).agents tid = 0 := by
  have hagid : ag.id = aid := by simpa using List.find?_some hfind
  have hmem : ag ∈ st.agents := List.mem_of_find?_eq_some hfind
  have hpag : (!(ag.status == AgentStatus.terminated) &&
      ag.currentTask == some tid) = true := by
    simp [hlive, hct]
  show ((st.agents.map _).filter _).length = 0
  rw [List.length_eq_zero, List.filter_eq_nil_iff]
  intro a' ha' hpa'
  obtain ⟨a, ha, rfl⟩ := List.mem_map.mp ha'
  by_cases hcase : (a.id == aid) = true
  · simp [hcase] at hpa'
  · have hcf : (a.id == aid) = false := by simpa using hcase
    simp only [hcf, Bool.false_eq_true, if_false] at hpa'
    have haag : a = ag := eq_of_filter_len_le_one (h.atMostOne tid) ha hpa' hmem hpag
    rw [haag, hagid] at hcf
    simp at hcf

theorem inv_requeue_of_no_holder (st : Store) (h : Inv st) (tid : Nat)
    (hzero : liveHolders st.agents tid = 0) : Inv (requeue st tid) := by
  refine ⟨fun tid2 => h.atMostOne tid2, fun t' ht' hnone => ?_,
    fun a ha hlive tid2 hct => ?_⟩
  · replace ht' : t' ∈ st.tasks.map (fun u =>
        if u.id == tid && !u.status.isTerminal then
          { u with status := TaskStatus.pending, assignedAgent := none }
        else u) := ht'
    obtain ⟨u, hu, rfl⟩ := List.mem_map.mp ht'
    by_cases hcase : (u.id == tid && !u.status.isTerminal) = true
    · have hid : u.id = tid := by
        have := ((Bool.and_eq_true _ _).mp hcase).1
        simpa using this
      simp only [hcase, if_true]
      show liveHolders st.agents u.id = 0
      rw [hid]
      exact hzero
    · have hcf : (u.id == tid && !u.status.isTerminal) = false := by simpa using hcase
      simp only [hcf, Bool.false_eq_true, if_false] at hnone ⊢
      show liveHolders st.agents u.id = 0
      exact h.unboundFree u hu hnone
  · replace ha : a ∈ st.agents := ha
    obtain ⟨t0, ht0, hidt⟩ := h.holderBound a ha hlive tid2 hct
    show ∃ u ∈ st.tasks.map (fun u =>
        if u.id == tid && !u.status.isTerminal then
          { u with status := TaskStatus.pending, assignedAgent := none }
        else u), u.id = tid2
    refine ⟨_, List.mem_map_of_mem _ ht0, ?_⟩
    split <;> exact hidt

theorem inv_reconcileOrphan (st : Store) (h : Inv st) (aid now grace : Nat) :
    Inv (reconcileOrphan st aid now grace) := by
  cases hfind : findAgent st aid with
  | none => simpa only [reconcileOrphan, hfind] using h
  | some ag =>
    by_cases hguard : (ag.status == AgentStatus.terminated ||
        probeLiveness ag now grace) = true
    · simpa only [reconcileOrphan, hfind, hguard, if_true] using h
    · have hg2 : (ag.status == AgentStatus.terminated ||
          probeLiveness ag now grace) = false := by simpa using hguard
      have hlive : (ag.status == AgentStatus.terminated) = false := by
        simp only [Bool.or_eq_true, not_or] at hguard
        simpa using hguard.1
      cases hct : ag.currentTask with
      | none =>
        simpa only [reconcileOrphan, hfind, hg2, Bool.false_eq_true, if_false, hct]
          using inv_terminateAgent st h aid ag.session
      | some tid =>
        have hz := liveHolders_terminate_of_holder st h ag aid tid hfind hlive hct
          ag.session
        simpa only [reconcileOrphan, hfind, hg2, Bool.false_eq_true, if_false, hct]
          using inv_requeue_of_no_holder _ (inv_terminateAgent st h aid ag.session) tid hz

theorem inv_step {st st2 : Store} (h : Inv st) (hs : Step st st2) : Inv st2 := by
  cases hs with
  | enqueueStep d ph p deps o now => exact inv_enqueue st h d ph p deps o now
  | selectNextStep cap => exact inv_selectNext st h cap
  | updateStatusStep tid s aid => exact inv_updateStatus st h tid s aid
  | spawnStep tid aid sid now => exact inv_spawn st h tid aid sid now
  | teardownStep aid => exact inv_teardown st h aid
  | reconcileStep aid now grace => exact inv_reconcileOrphan st h aid now grace

theorem inv_of_reachable {st : Store} (h : Reachable st) : Inv st := by
  induction h with
  | init phases => exact inv_init phases
  | step _ hs ih => exact inv_step ih hs

/-- C1: in every reachable state of the orchestration store, every task has
at most one non-terminated agent holding it as its current task; the
invariant is preserved by every operation, including `selectNext`, whose
selection marks tasks `assigned` atomically (one atomic step on the
store). -/
theorem task_single_holder (st : Store) (h : Reachable st) (tid : Nat) :
    liveHolders st.agents tid ≤ 1 :=
  (inv_of_reachable h).atMostOne tid

/-- Witness for C1: a reachable store obtained by enqueueing a task,
selecting it, and spawning an agent for it. -/
theorem task_single_holder_witness :
    liveHolders (spawn (selectNext (enqueue (Store.init [1, 2, 3]) ['t'] 1
      Priority.medium [] none 0).1 1).2 1 5 42 7).agents 1 ≤ 1 :=
  task_single_holder _
    (Reachable.step
      (Reachable.step
        (Reachable.step (Reachable.init [1, 2, 3])
          (Step.enqueueStep _ ['t'] 1 Priority.medium [] none 0))
        (Step.selectNextStep _ 1))
      (Step.spawnStep _ 1 5 42 7)) 1

/-- Witness for C9 at a concrete input. -/
theorem getApiUrl_normalized_witness :
    getApiUrl "http".toList "localhost".toList "8000".toList "/api/workflow".toList =
      getApiBaseUrl "http".toList "localhost".toList "8000".toList ++ "/api/workflow".toList :=
  (getApiUrl_normalized "http".toList "localhost".toList "8000".toList
    "/api/workflow".toList).1 (by decide)

end Hephaestus
